import Mathlib

/-!
# A multithreaded concurrent server: verification development

Shallow embedding of `src/server.cpp` (thread pool, listener, connection
handler) and `src/client.cpp` (client socket wrapper).

Conventions of the embedding.

* A C++ `int` is a Lean `Int`; the only arithmetic that can leave the 32-bit
  range is the pre-increment of `std::atomic<int> message_counter`, which is
  wrapped explicitly with `wrapInt32`.
* A system call is a value of `Event` appended to a trace; what the operating
  system answers (return values, bytes stored in a buffer) is an explicit
  argument of the embedded function.
* A `char` buffer and a `std::string` are lists of bytes.
-/

set_option autoImplicit false

/-! ## Bytes, text and system calls -/

/-- One `char` of a buffer or of a `std::string`. -/
abbrev Byte := UInt8

/-- The bytes of an ASCII string literal of the source. -/
def ascii (s : String) : List Byte :=
  s.toList.map (fun c => UInt8.ofNat c.toNat)

/-- Decimal digits of a natural number, most significant first. -/
def decimalNat (n : Nat) : List Byte :=
  (Nat.toDigits 10 n).map (fun c => UInt8.ofNat c.toNat)

/-- Model of `std::to_string(int)` (and of `operator<<` on an `int`): a minus
sign for a negative value, then the decimal digits of the magnitude. -/
def to_string (i : Int) : List Byte :=
  if i < 0 then (45 : Byte) :: decimalNat i.natAbs else decimalNat i.toNat

/-- Text written by `std::endl`. -/
def endl : List Byte := [10]

/-- Two's-complement wrap-around of a value to the range of a 32-bit `int`;
this is what an arithmetic operation of `std::atomic<int>` yields. -/
def wrapInt32 (x : Int) : Int :=
  (x + 2147483648) % 4294967296 - 2147483648

/-- Observable actions of the two programs: system calls on sockets and
writes to the console streams. -/
inductive Event where
  | socket
  | setsockopt (fd : Int)
  | bind (fd : Int)
  | listen (fd : Int) (backlog : Nat)
  | read (fd : Int) (count : Nat)
  | recv (fd : Int) (count : Nat)
  | getpeername (fd : Int)
  | send (fd : Int) (data : List Byte)
  | close (fd : Int)
  | cout (text : List Byte)
  | cerr (text : List Byte)
  | perror (msg : List Byte)
  deriving DecidableEq, Repr

/-- What a single `read` or `recv` can answer: `-1`, or a number of bytes
(possibly zero) that it stored at the start of the buffer. -/
inductive IoResult where
  | error
  | bytes (data : List Byte)
  deriving DecidableEq, Repr

/-- Effect of `read(fd, buffer, count)` / `recv(fd, buffer, count, 0)` on the
buffer: returns the value the call returns and the buffer afterwards. The
operating system never stores more than `count` bytes. -/
def sysRead (buffer : List Byte) (count : Nat) : IoResult → Int × List Byte
  | .error => (-1, buffer)
  | .bytes data =>
    let stored := data.take count
    ((stored.length : Int), stored ++ buffer.drop stored.length)

/-- The `send` calls of a trace, in order: descriptor and bytes handed over. -/
def sentData : List Event → List (Int × List Byte)
  | [] => []
  | .send fd data :: es => (fd, data) :: sentData es
  | _ :: es => sentData es

/-- The descriptors passed to `close` in a trace, in order. -/
def closedFds : List Event → List Int
  | [] => []
  | .close fd :: es => fd :: closedFds es
  | _ :: es => closedFds es

namespace Server

/-! ## Connection handler (`handleClient`, server.cpp 163-198) -/

/-- The source's `#define BUFFER_SIZE 1024`. -/
def BUFFER_SIZE : Nat := 1024

/-- What the call `send(client_socket, data, size, 0)` can do. It returns a
value (the number of bytes accepted, or -1 with an error) or, when the peer has
reset the connection, it raises SIGPIPE: the flags are 0 and nothing in the
program changes the disposition of that signal, so the process ends inside the
call. -/
inductive SendOutcome where
  | returned (ret : Int)
  | sigpipe
  deriving DecidableEq, Repr

/-- What the operating system answers during one `handleClient` call. -/
structure ClientEnv where
  /-- outcome of the single `read` -/
  readResult : IoResult
  /-- text of `inet_ntoa(client_addr.sin_addr)` after `getpeername` -/
  peerIp : List Byte
  /-- value of `ntohs(client_addr.sin_port)` after `getpeername` -/
  peerPort : Nat
  /-- what `send` does; when it returns, the handler does not look at the value -/
  sendOutcome : SendOutcome
  deriving DecidableEq, Repr

/-- Outcome of one `handleClient` call. -/
structure HandleResult where
  /-- value of the static `message_counter` afterwards -/
  message_counter : Int
  /-- the local `message_id`, when the branch that declares it was taken -/
  message_id : Option Int
  /-- whether the process was ended by a signal during the call, so that the
  call did not return -/
  killed : Bool
  /-- system calls and console writes, in program order -/
  trace : List Event
  deriving DecidableEq, Repr

/-- Embedding of `handleClient(client_socket)`; the static counter is passed in
and returned. When `send` ends the process the trace stops at the `send`:
the statements after it, the last console write and `close`, are not
reached. -/
def handleClient (env : ClientEnv) (client_socket : Int) (message_counter : Int) :
    HandleResult :=
  let buffer0 : List Byte := List.replicate BUFFER_SIZE 0
  let rd := sysRead buffer0 BUFFER_SIZE env.readResult
  let bytesRead : Int := rd.1
  let buffer : List Byte := rd.2
  if bytesRead > 0 then
    let counter1 := wrapInt32 (message_counter + 1)
    let message_id := counter1
    let received := buffer.take bytesRead.toNat
    let response :=
      ascii "Message #" ++ to_string message_id ++ ascii " - Server response: " ++ received
    let upToSend : List Event :=
      [ Event.read client_socket BUFFER_SIZE,
        Event.cout (ascii "(#" ++ to_string message_id
          ++ ascii ") Received message from client: " ++ received ++ endl),
        Event.getpeername client_socket,
        Event.cout (ascii "Client IP: " ++ env.peerIp ++ endl),
        Event.cout (ascii "Client port: " ++ to_string (env.peerPort : Int) ++ endl),
        Event.send client_socket response ]
    match env.sendOutcome with
    | .returned _ =>
      { message_counter := counter1
        message_id := some message_id
        killed := false
        trace := upToSend ++
          [ Event.cout (ascii "Sent response to client: " ++ response ++ endl),
            Event.close client_socket ] }
    | .sigpipe =>
      { message_counter := counter1
        message_id := some message_id
        killed := true
        trace := upToSend }
  else
    { message_counter := message_counter
      message_id := none
      killed := false
      trace :=
        [ Event.read client_socket BUFFER_SIZE,
          Event.cerr (ascii "Failed to read data from client" ++ endl),
          Event.close client_socket ] }

/-- A run of `handleClient` calls whose counter increments happen one after
the other (each call is given its own descriptor and operating-system
answers); returns the outcome of each call, starting from counter value
`counter`. A process that is ended inside a call makes no later call, so the
runs of one process are the lists in which at most the last call is killed;
the definition is given for every list, which includes them. -/
def serve (counter : Int) : List (ClientEnv × Int) → List HandleResult
  | [] => []
  | (env, fd) :: rest =>
    let r := handleClient env fd counter
    r :: serve r.message_counter rest

/-- The value of the counter after a run that started at `counter`. -/
def counterAfter (counter : Int) : List (ClientEnv × Int) → Int
  | [] => counter
  | (env, fd) :: rest => counterAfter (handleClient env fd counter).message_counter rest

/-- The sequence numbers handed out during a run, in order. -/
def assignedIds (counter : Int) (calls : List (ClientEnv × Int)) : List Int :=
  (serve counter calls).filterMap (fun r => r.message_id)

/-- The value the `read` of a call returns (the local `bytesRead`). -/
def readReturn (env : ClientEnv) : Int :=
  (sysRead (List.replicate BUFFER_SIZE 0) BUFFER_SIZE env.readResult).1

/-- Whether the `read` of a call returns more than zero bytes. -/
def readSucceeds (env : ClientEnv) : Bool :=
  decide (readReturn env > 0)

/-- Number of calls of a run whose `read` returns more than zero bytes. -/
def successes (calls : List (ClientEnv × Int)) : Nat :=
  calls.countP (fun call => readSucceeds call.1)

/-! ## Worker pool (`ThreadPool`, server.cpp 15-80) -/

/-- Where one worker thread is in the loop of `ThreadPool::worker`. -/
inductive WorkerState (τ : Type) where
  /-- at `condition.wait`, holding no task -/
  | idle
  /-- past the critical section, about to call or calling `task()` -/
  | running (task : τ)
  /-- returned from `worker` -/
  | terminated
  deriving DecidableEq, Repr

/-- State of a `ThreadPool` whose tasks are values of `τ`. The first three
fields are the members `threads`, `tasks_queue` (front of the queue at the
head of the list) and `stop`; the other four are history variables that only
record what has happened. -/
structure ThreadPool (τ : Type) where
  threads : List (WorkerState τ)
  tasks_queue : List τ
  stop : Bool
  /-- every task passed to `addTask`, in submission order -/
  submitted : List τ
  /-- value of `submitted` at the moment `stop` was set -/
  submittedBeforeStop : List τ
  /-- every dequeue so far, in order: worker index and task taken -/
  dequeued : List (Nat × τ)
  /-- every completed call `task()`, in completion order -/
  executed : List τ
  deriving DecidableEq, Repr

/-- The atomic steps of the pool: a call of `addTask`, the critical section of
worker `i` ending in a dequeue, the call `task()` of worker `i`, the store to
`stop` in the destructor, and the critical section of worker `i` ending in
`return`. -/
inductive PoolAction (τ : Type) where
  | addTask (task : τ)
  | dequeue (i : Nat)
  | run (i : Nat)
  | setStop
  | exit (i : Nat)
  deriving DecidableEq, Repr

/-- Embedding of the constructor `ThreadPool(thread_count)`: `thread_count`
workers, each entering its loop. -/
def ThreadPool.init {τ : Type} (thread_count : Nat) : ThreadPool τ :=
  { threads := List.replicate thread_count WorkerState.idle
    tasks_queue := []
    stop := false
    submitted := []
    submittedBeforeStop := []
    dequeued := []
    executed := [] }

/-- One atomic step of the pool; `none` when the step is not enabled.

* `addTask task`: `tasks_queue.push(task)` under the mutex.
* `dequeue i`: worker `i` leaves `condition.wait` with a non-empty queue, so
  the test `stop && tasks_queue.empty()` fails and it takes
  `tasks_queue.front()` and pops it, all under the mutex.
* `exit i`: worker `i` leaves `condition.wait` and the test
  `stop && tasks_queue.empty()` succeeds, so it returns.
* `run i`: worker `i` calls `task()` and goes back to the top of its loop.
* `setStop`: `stop.store(true)` of the destructor, which runs once.

A waiting worker can do nothing while the queue is empty and `stop` is
false. -/
def ThreadPool.step {τ : Type} (p : ThreadPool τ) : PoolAction τ → Option (ThreadPool τ)
  | .addTask task =>
    some { p with tasks_queue := p.tasks_queue ++ [task]
                  submitted := p.submitted ++ [task] }
  | .dequeue i =>
    match p.threads[i]?, p.tasks_queue with
    | some .idle, task :: rest =>
      some { p with threads := p.threads.set i (WorkerState.running task)
                    tasks_queue := rest
                    dequeued := p.dequeued ++ [(i, task)] }
    | _, _ => none
  | .exit i =>
    match p.threads[i]?, p.tasks_queue, p.stop with
    | some .idle, [], true =>
      some { p with threads := p.threads.set i WorkerState.terminated }
    | _, _, _ => none
  | .run i =>
    match p.threads[i]? with
    | some (.running task) =>
      some { p with threads := p.threads.set i WorkerState.idle
                    executed := p.executed ++ [task] }
    | _ => none
  | .setStop =>
    if p.stop then none
    else some { p with stop := true, submittedBeforeStop := p.submitted }

/-- Runs a schedule (a list of atomic steps) from a pool state; `none` when
some step of the schedule is not enabled at its turn. -/
def ThreadPool.exec {τ : Type} (p : ThreadPool τ) : List (PoolAction τ) → Option (ThreadPool τ)
  | [] => some p
  | a :: rest =>
    match p.step a with
    | some q => q.exec rest
    | none => none

/-- All worker threads have returned (the joins of the destructor can
complete). -/
def ThreadPool.allTerminated {τ : Type} (p : ThreadPool τ) : Prop :=
  ∀ w ∈ p.threads, w = WorkerState.terminated

instance {τ : Type} [DecidableEq τ] (p : ThreadPool τ) : Decidable p.allTerminated := by
  unfold ThreadPool.allTerminated; infer_instance

/-- The tasks taken from the queue so far, in dequeue order. -/
def ThreadPool.dequeuedTasks {τ : Type} (p : ThreadPool τ) : List τ :=
  p.dequeued.map Prod.snd

/-- The task a worker holds: one for a worker between its dequeue and the end
of `task()`, none otherwise. -/
def WorkerState.held {τ : Type} : WorkerState τ → List τ
  | .running task => [task]
  | _ => []

/-- The tasks that have been dequeued and whose call `task()` has not
completed, in worker order. -/
def runningTasks {τ : Type} : List (WorkerState τ) → List τ
  | [] => []
  | w :: ws => w.held ++ runningTasks ws

/-- Invariant of the pool with `n` workers: the submissions are the dequeued
tasks followed by the queue; the dequeued tasks are the executed ones together
with those being run; once `stop` is set, the tasks submitted before are a
fixed prefix of the submissions; and once some worker has returned, `stop` is
set and every task submitted before it was set has been dequeued. -/
structure ThreadPool.Inv {τ : Type} (n : Nat) (p : ThreadPool τ) : Prop where
  workers : p.threads.length = n
  fifo : p.submitted = p.dequeuedTasks ++ p.tasks_queue
  accounted : p.dequeuedTasks.Perm (p.executed ++ runningTasks p.threads)
  frozen : p.stop = true → p.submittedBeforeStop <+: p.submitted
  drained : WorkerState.terminated ∈ p.threads →
    p.stop = true ∧ p.submittedBeforeStop <+: p.dequeuedTasks

/-- An example schedule for a pool of two workers: two submissions, a dequeue,
the start of teardown, a late submission, and the workers draining the queue
before they exit. -/
def exampleSchedule : List (PoolAction Nat) :=
  [.addTask 7, .addTask 8, .dequeue 1, .setStop, .addTask 9, .run 1, .dequeue 0,
   .dequeue 1, .run 0, .exit 0, .run 1, .exit 1]

/-- The state the example schedule ends in. -/
def exampleFinal : ThreadPool Nat :=
  { threads := [WorkerState.terminated, WorkerState.terminated]
    tasks_queue := []
    stop := true
    submitted := [7, 8, 9]
    submittedBeforeStop := [7, 8]
    dequeued := [(1, 7), (0, 8), (1, 9)]
    executed := [7, 8, 9] }

/-! ## Listener (`TCPServer`, server.cpp 82-161) -/

/-- The member of `TCPServer` that the operations branch on. -/
structure TCPServer where
  server_fd : Int
  port : Int
  deriving DecidableEq, Repr

/-- What the operating system answers to the four calls of `initialize`. -/
structure InitEnv where
  socketRet : Int
  setsockoptRet : Int
  bindRet : Int
  listenRet : Int
  deriving DecidableEq, Repr

/-- Embedding of the constructor `TCPServer(port)`. -/
def TCPServer.construct (port : Int) : TCPServer :=
  { server_fd := -1, port := port }

/-- Embedding of `TCPServer::initialize`: the value returned, the object
afterwards and the calls made. -/
def TCPServer.initialize (env : InitEnv) (s : TCPServer) : Bool × TCPServer × List Event :=
  let s1 : TCPServer := { s with server_fd := env.socketRet }
  if s1.server_fd = 0 then
    (false, s1, [Event.socket, Event.perror (ascii "Socket creation failed")])
  else if env.setsockoptRet ≠ 0 then
    (false, s1, [Event.socket, Event.setsockopt s1.server_fd,
      Event.perror (ascii "Setsockopt failed"), Event.close s1.server_fd])
  else if env.bindRet < 0 then
    (false, s1, [Event.socket, Event.setsockopt s1.server_fd, Event.bind s1.server_fd,
      Event.perror (ascii "Bind failed"), Event.close s1.server_fd])
  else if env.listenRet < 0 then
    (false, s1, [Event.socket, Event.setsockopt s1.server_fd, Event.bind s1.server_fd,
      Event.listen s1.server_fd 3, Event.perror (ascii "Listen failed"),
      Event.close s1.server_fd])
  else
    (true, s1, [Event.socket, Event.setsockopt s1.server_fd, Event.bind s1.server_fd,
      Event.listen s1.server_fd 3])

/-- Embedding of `TCPServer::closeServer`. -/
def TCPServer.closeServer (s : TCPServer) : TCPServer × List Event :=
  if s.server_fd ≥ 0 then
    ({ s with server_fd := -1 }, [Event.close s.server_fd])
  else
    (s, [])

/-- Embedding of the destructor `~TCPServer`, which calls `closeServer`. -/
def TCPServer.destroy (s : TCPServer) : TCPServer × List Event :=
  s.closeServer

/-- The lifecycle construct, `initialize`, optionally an explicit
`closeServer()`, then the destructor: the value `initialize` returned, the
final object and all calls made. -/
def TCPServer.lifecycle (port : Int) (env : InitEnv) (explicitClose : Bool) :
    Bool × TCPServer × List Event :=
  let r := TCPServer.initialize env (TCPServer.construct port)
  let c := if explicitClose then r.2.1.closeServer else (r.2.1, [])
  let d := c.1.destroy
  (r.1, d.1, r.2.2 ++ c.2 ++ d.2)

/-- The four steps of `initialize` all succeed, by the conventions of the
system calls: `socket` returns a descriptor (not negative), `setsockopt`,
`bind` and `listen` return zero. -/
def InitEnv.allSucceed (env : InitEnv) : Prop :=
  0 ≤ env.socketRet ∧ env.setsockoptRet = 0 ∧ env.bindRet = 0 ∧ env.listenRet = 0

instance (env : InitEnv) : Decidable env.allSucceed := by
  unfold InitEnv.allSucceed; infer_instance

end Server

namespace Client

/-! ## Client (`TCPClient`, client.cpp) -/

/-- The member of `TCPClient` that the operations branch on. -/
structure TCPClient where
  clientSocket : Int
  deriving DecidableEq, Repr

/-- Embedding of the constructor `TCPClient()`. -/
def TCPClient.construct : TCPClient :=
  { clientSocket := -1 }

/-- The `std::string` built from a `const char*`: the bytes before the first
zero byte. -/
def cString (buffer : List Byte) : List Byte :=
  buffer.takeWhile (fun b => b != 0)

/-- Embedding of `TCPClient::receiveMessage`: the string returned and the
calls made; `r` is what the single `recv` answers. -/
def TCPClient.receiveMessage (c : TCPClient) (r : IoResult) : List Byte × List Event :=
  let buffer0 : List Byte := List.replicate 1024 0
  let rd := sysRead buffer0 (1024 - 1) r
  let bytesRead : Int := rd.1
  let buffer : List Byte := rd.2
  if bytesRead < 0 then
    ([], [Event.recv c.clientSocket (1024 - 1),
      Event.perror (ascii "Failed to receive message")])
  else
    let buffer1 := buffer.set bytesRead.toNat 0
    (cString buffer1, [Event.recv c.clientSocket (1024 - 1)])

/-- Embedding of `TCPClient::closeConnection`. -/
def TCPClient.closeConnection (c : TCPClient) : TCPClient × List Event :=
  if c.clientSocket ≥ 0 then
    ({ c with clientSocket := -1 }, [Event.close c.clientSocket])
  else
    (c, [])

end Client

/-! # Theorems -/

/-! ## Arithmetic of the counter -/

theorem wrapInt32_of_inRange (x : Int) (hlo : -2147483648 ≤ x) (hhi : x < 2147483648) :
    wrapInt32 x = x := by
  unfold wrapInt32; omega

theorem wrapInt32_inRange (x : Int) :
    -2147483648 ≤ wrapInt32 x ∧ wrapInt32 x < 2147483648 := by
  unfold wrapInt32; omega

theorem wrapInt32_wrap_add (x y : Int) : wrapInt32 (wrapInt32 x + y) = wrapInt32 (x + y) := by
  unfold wrapInt32; omega

/-! ## Traces -/

theorem sentData_append (xs ys : List Event) :
    sentData (xs ++ ys) = sentData xs ++ sentData ys := by
  induction xs with
  | nil => rfl
  | cons e es ih => cases e <;> simp [sentData, ih]

theorem closedFds_append (xs ys : List Event) :
    closedFds (xs ++ ys) = closedFds xs ++ closedFds ys := by
  induction xs with
  | nil => rfl
  | cons e es ih => cases e <;> simp [closedFds, ih]

namespace Server

/-! ## Connection handler -/

theorem readReturn_error (env : ClientEnv) (h : env.readResult = IoResult.error) :
    readReturn env = -1 := by
  simp [readReturn, sysRead, h]

theorem readReturn_bytes (env : ClientEnv) (P : List Byte)
    (h : env.readResult = IoResult.bytes P) :
    readReturn env = ((min BUFFER_SIZE P.length : Nat) : Int) := by
  simp [readReturn, sysRead, h]

/-- The branch of `handleClient` taken when `read` returns nothing usable. -/
theorem handleClient_of_nonpos (env : ClientEnv) (fd c : Int) (h : readReturn env ≤ 0) :
    handleClient env fd c =
      { message_counter := c
        message_id := none
        killed := false
        trace := [ Event.read fd BUFFER_SIZE,
                   Event.cerr (ascii "Failed to read data from client" ++ endl),
                   Event.close fd ] } := by
  unfold readReturn at h
  unfold handleClient
  simp only []
  rw [if_neg (by omega)]

/-- The bytes `handleClient` treats as the message: the first `bytesRead`
bytes of the buffer are the bytes `read` stored. -/
theorem received_eq (P : List Byte) (h : P.length ≤ BUFFER_SIZE) :
    (sysRead (List.replicate BUFFER_SIZE 0) BUFFER_SIZE (IoResult.bytes P)).2.take
      (sysRead (List.replicate BUFFER_SIZE 0) BUFFER_SIZE (IoResult.bytes P)).1.toNat = P := by
  simp [sysRead, List.take_of_length_le h]

/-- The calls of `handleClient` up to and including `send`, when `read` delivers
the payload `P` and the counter was `c`. -/
theorem handleClient_of_bytes (env : ClientEnv) (fd c : Int) (P : List Byte)
    (hread : env.readResult = IoResult.bytes P) (hlo : 1 ≤ P.length)
    (hhi : P.length ≤ BUFFER_SIZE) :
    handleClient env fd c =
      (match env.sendOutcome with
        | .returned _ =>
          { message_counter := wrapInt32 (c + 1)
            message_id := some (wrapInt32 (c + 1))
            killed := false
            trace :=
              [ Event.read fd BUFFER_SIZE,
                Event.cout (ascii "(#" ++ to_string (wrapInt32 (c + 1))
                  ++ ascii ") Received message from client: " ++ P ++ endl),
                Event.getpeername fd,
                Event.cout (ascii "Client IP: " ++ env.peerIp ++ endl),
                Event.cout (ascii "Client port: " ++ to_string (env.peerPort : Int) ++ endl),
                Event.send fd (ascii "Message #" ++ to_string (wrapInt32 (c + 1))
                  ++ ascii " - Server response: " ++ P) ] ++
              [ Event.cout (ascii "Sent response to client: "
                  ++ (ascii "Message #" ++ to_string (wrapInt32 (c + 1))
                    ++ ascii " - Server response: " ++ P) ++ endl),
                Event.close fd ] }
        | .sigpipe =>
          { message_counter := wrapInt32 (c + 1)
            message_id := some (wrapInt32 (c + 1))
            killed := true
            trace :=
              [ Event.read fd BUFFER_SIZE,
                Event.cout (ascii "(#" ++ to_string (wrapInt32 (c + 1))
                  ++ ascii ") Received message from client: " ++ P ++ endl),
                Event.getpeername fd,
                Event.cout (ascii "Client IP: " ++ env.peerIp ++ endl),
                Event.cout (ascii "Client port: " ++ to_string (env.peerPort : Int) ++ endl),
                Event.send fd (ascii "Message #" ++ to_string (wrapInt32 (c + 1))
                  ++ ascii " - Server response: " ++ P) ] }) := by
  have hpos : (sysRead (List.replicate BUFFER_SIZE 0) BUFFER_SIZE (IoResult.bytes P)).1 > 0 := by
    simp [sysRead, List.take_of_length_le hhi]; omega
  unfold handleClient
  simp only [hread]
  rw [if_pos hpos, received_eq P hhi]

/-- The counter and the sequence number after a call whose `read` returned more
than zero bytes. -/
theorem handleClient_of_pos (env : ClientEnv) (fd c : Int) (h : 0 < readReturn env) :
    (handleClient env fd c).message_counter = wrapInt32 (c + 1)
    ∧ (handleClient env fd c).message_id = some (wrapInt32 (c + 1)) := by
  unfold readReturn at h
  unfold handleClient
  simp only []
  rw [if_pos (by omega)]
  cases env.sendOutcome <;> exact ⟨rfl, rfl⟩

/-- When `read` returned more than zero bytes and `send` ends the process, the
call issues no `close`: its last action is the `send`. -/
theorem handleClient_killed_in_send (env : ClientEnv) (fd c : Int) (h : 0 < readReturn env)
    (hsend : env.sendOutcome = SendOutcome.sigpipe) :
    (handleClient env fd c).killed = true
    ∧ closedFds (handleClient env fd c).trace = []
    ∧ ∃ data, (handleClient env fd c).trace.getLast? = some (Event.send fd data) := by
  unfold readReturn at h
  unfold handleClient
  simp only []
  rw [if_pos (by omega), hsend]
  exact ⟨rfl, by simp [closedFds], _, rfl⟩

/-- Claim C1, as amended. When the single `read` delivers a payload `P` of 1 to
1024 bytes (zero bytes allowed in it), `handleClient` issues exactly one `send`,
on its own descriptor, and the bytes handed over are
`"Message #" ++ decimal(N) ++ " - Server response: " ++ P` with `N` the counter
after the increment. The increment wraps at 32 bits; `N` is the old counter plus
one, and positive, when the old counter is in `0 .. 2^31 - 2`. -/
theorem handleClient_echo (env : ClientEnv) (fd c : Int) (P : List Byte)
    (hread : env.readResult = IoResult.bytes P) (hlo : 1 ≤ P.length) (hhi : P.length ≤ 1024) :
    sentData (handleClient env fd c).trace =
        [(fd, ascii "Message #" ++ to_string (handleClient env fd c).message_counter
              ++ ascii " - Server response: " ++ P)]
    ∧ (handleClient env fd c).message_counter = wrapInt32 (c + 1)
    ∧ (0 ≤ c → c < 2147483647 →
        (handleClient env fd c).message_counter = c + 1
        ∧ 0 < (handleClient env fd c).message_counter) := by
  rw [handleClient_of_bytes env fd c P hread hlo hhi]
  have hw : 0 ≤ c → c < 2147483647 → wrapInt32 (c + 1) = c + 1 ∧ 0 < wrapInt32 (c + 1) := by
    intro h0 h1
    rw [wrapInt32_of_inRange (c + 1) (by omega) (by omega)]
    omega
  cases env.sendOutcome with
  | returned ret => exact ⟨by simp [sentData], rfl, hw⟩
  | sigpipe => exact ⟨by simp [sentData], rfl, hw⟩

/-- Witness of `handleClient_echo`: the first message of a server, with a zero
byte in the payload. -/
theorem handleClient_echo_witness :
    sentData (handleClient ⟨IoResult.bytes [65, 0, 66], ascii "10.0.0.7", 40000, SendOutcome.returned 33⟩ 5 0).trace
        = [(5, ascii "Message #1 - Server response: " ++ [65, 0, 66])]
    ∧ (handleClient ⟨IoResult.bytes [65, 0, 66], ascii "10.0.0.7", 40000, SendOutcome.returned 33⟩ 5 0).message_counter
        = 1 := by
  have h := handleClient_echo ⟨IoResult.bytes [65, 0, 66], ascii "10.0.0.7", 40000, SendOutcome.returned 33⟩ 5 0
    [65, 0, 66] rfl (by decide) (by decide)
  obtain ⟨hsent, -, hrange⟩ := h
  have hN := (hrange (by decide) (by decide)).1
  refine ⟨?_, hN⟩
  rw [hsent, hN]
  decide

/-- Claim C1 as stated fails: with the counter at `2^31 - 1` the increment wraps,
so the number put in the reply is `-2147483648`, which is not positive. -/
theorem handleClient_echo_counterexample :
    (handleClient ⟨IoResult.bytes [65], ascii "10.0.0.7", 40000, SendOutcome.returned 41⟩ 5 2147483647).message_counter
        = -2147483648
    ∧ ¬ (0 < (handleClient ⟨IoResult.bytes [65], ascii "10.0.0.7", 40000, SendOutcome.returned 41⟩ 5
              2147483647).message_counter)
    ∧ sentData (handleClient ⟨IoResult.bytes [65], ascii "10.0.0.7", 40000, SendOutcome.returned 41⟩ 5 2147483647).trace
        = [(5, ascii "Message #-2147483648 - Server response: A")] := by
  decide

/-- Claim C3. When the `read` of a `handleClient` call returns zero or a negative
value, the call issues no `send`, assigns no sequence number and leaves the
counter unchanged; when it returns more than zero, the counter is incremented
once (with 32-bit wrap-around). -/
theorem handleClient_empty_read (env : ClientEnv) (fd c : Int) :
    (readReturn env ≤ 0 →
        sentData (handleClient env fd c).trace = []
        ∧ (handleClient env fd c).message_counter = c
        ∧ (handleClient env fd c).message_id = none)
    ∧ (0 < readReturn env →
        (handleClient env fd c).message_counter = wrapInt32 (c + 1)) := by
  constructor
  · intro h
    rw [handleClient_of_nonpos env fd c h]
    exact ⟨by simp [sentData], rfl, rfl⟩
  · intro h
    exact (handleClient_of_pos env fd c h).1

/-- Witness of `handleClient_empty_read`: a peer that closes without sending
(`read` returns 0), a failing `read` (returns -1), and a one-byte message. -/
theorem handleClient_empty_read_witness :
    (sentData (handleClient ⟨IoResult.bytes [], [], 0, SendOutcome.returned 0⟩ 5 7).trace = []
      ∧ (handleClient ⟨IoResult.bytes [], [], 0, SendOutcome.returned 0⟩ 5 7).message_counter = 7)
    ∧ (sentData (handleClient ⟨IoResult.error, [], 0, SendOutcome.returned 0⟩ 5 7).trace = []
      ∧ (handleClient ⟨IoResult.error, [], 0, SendOutcome.returned 0⟩ 5 7).message_counter = 7)
    ∧ (handleClient ⟨IoResult.bytes [65], [], 0, SendOutcome.returned 31⟩ 5 7).message_counter = 8 := by
  have h0 := (handleClient_empty_read ⟨IoResult.bytes [], [], 0, SendOutcome.returned 0⟩ 5 7).1 (by decide)
  have h1 := (handleClient_empty_read ⟨IoResult.error, [], 0, SendOutcome.returned 0⟩ 5 7).1 (by decide)
  have h2 := (handleClient_empty_read ⟨IoResult.bytes [65], [], 0, SendOutcome.returned 31⟩ 5 7).2 (by decide)
  exact ⟨⟨h0.1, h0.2.1⟩, ⟨h1.1, h1.2.1⟩, h2.trans (by decide)⟩

end Server

namespace Server

/-! ## Runs of the connection handler -/

theorem readSucceeds_iff (env : ClientEnv) : readSucceeds env = true ↔ 0 < readReturn env := by
  simp [readSucceeds]

/-- The sequence number of one call: assigned exactly when the `read` succeeds,
and then the wrapped successor of the counter. -/
theorem handleClient_message_id (env : ClientEnv) (fd c : Int) :
    (handleClient env fd c).message_id
      = if readSucceeds env then some (wrapInt32 (c + 1)) else none := by
  by_cases h : 0 < readReturn env
  · rw [(handleClient_of_pos env fd c h).2, if_pos ((readSucceeds_iff env).2 h)]
  · have hf : ¬ (readSucceeds env = true) := fun hs => h ((readSucceeds_iff env).1 hs)
    rw [handleClient_of_nonpos env fd c (by omega), if_neg hf]

theorem handleClient_message_counter (env : ClientEnv) (fd c : Int) :
    (handleClient env fd c).message_counter
      = if readSucceeds env then wrapInt32 (c + 1) else c := by
  by_cases h : 0 < readReturn env
  · rw [(handleClient_of_pos env fd c h).1, if_pos ((readSucceeds_iff env).2 h)]
  · have hf : ¬ (readSucceeds env = true) := fun hs => h ((readSucceeds_iff env).1 hs)
    rw [handleClient_of_nonpos env fd c (by omega), if_neg hf]

theorem successes_cons (call : ClientEnv × Int) (rest : List (ClientEnv × Int)) :
    successes (call :: rest) = successes rest + (if readSucceeds call.1 then 1 else 0) := by
  simp [successes, List.countP_cons]

/-- The counter after a run is the start value plus the number of successful
reads, wrapped to 32 bits. -/
theorem counterAfter_eq (calls : List (ClientEnv × Int)) (c : Int)
    (hlo : -2147483648 ≤ c) (hhi : c < 2147483648) :
    counterAfter c calls = wrapInt32 (c + successes calls) := by
  induction calls generalizing c with
  | nil => simp [counterAfter, successes, wrapInt32_of_inRange c hlo hhi]
  | cons call rest ih =>
    obtain ⟨env, fd⟩ := call
    simp only [counterAfter, successes_cons, handleClient_message_counter]
    by_cases hs : readSucceeds env = true
    · have hr := wrapInt32_inRange (c + 1)
      simp only [hs, if_true]
      rw [ih _ hr.1 hr.2, wrapInt32_wrap_add]
      congr 1
      push_cast
      omega
    · simp only [hs, Bool.false_eq_true, if_false]
      rw [ih c hlo hhi]
      simp

/-- The sequence numbers of a run that starts at counter `c`: the `k`-th
successful read is given `c + k`, wrapped to 32 bits. -/
theorem assignedIds_eq (calls : List (ClientEnv × Int)) (c : Int)
    (hlo : -2147483648 ≤ c) (hhi : c < 2147483648) :
    assignedIds c calls
      = (List.range (successes calls)).map (fun k => wrapInt32 (c + ((k + 1 : Nat) : Int))) := by
  induction calls generalizing c with
  | nil => simp [assignedIds, serve, successes]
  | cons call rest ih =>
    obtain ⟨env, fd⟩ := call
    have hstep : assignedIds c ((env, fd) :: rest)
        = (match (handleClient env fd c).message_id with
            | some n => [n]
            | none => [])
          ++ assignedIds (handleClient env fd c).message_counter rest := by
      simp only [assignedIds, serve, List.filterMap_cons]
      cases (handleClient env fd c).message_id <;> rfl
    rw [hstep, handleClient_message_id, handleClient_message_counter, successes_cons]
    by_cases hs : readSucceeds env = true
    · have hr := wrapInt32_inRange (c + 1)
      simp only [hs, if_true]
      rw [ih _ hr.1 hr.2, List.range_succ_eq_map]
      simp only [List.map_cons, List.map_map, List.singleton_append]
      congr 1
      apply List.map_congr_left
      intro k _
      simp only [Function.comp]
      rw [wrapInt32_wrap_add]
      congr 1
      push_cast
      omega
    · simp only [hs, Bool.false_eq_true, if_false]
      rw [ih c hlo hhi]
      simp

/-- Each call of a run is `handleClient` applied to the counter left by the
calls before it. -/
theorem serve_getElem? (calls : List (ClientEnv × Int)) (c : Int) (i : Nat) :
    (serve c calls)[i]?
      = calls[i]?.map (fun call => handleClient call.1 call.2 (counterAfter c (calls.take i))) := by
  induction calls generalizing c i with
  | nil => simp [serve]
  | cons call rest ih =>
    obtain ⟨env, fd⟩ := call
    cases i with
    | zero => simp [serve, counterAfter]
    | succ j => simp [serve, counterAfter, ih]

theorem successes_take_le (calls : List (ClientEnv × Int)) (i : Nat) :
    successes (calls.take i) ≤ successes calls := by
  unfold successes
  exact (List.take_sublist i calls).countP_le _

theorem successes_take_succ (calls : List (ClientEnv × Int)) (i : Nat) (hi : i < calls.length) :
    successes (calls.take (i + 1))
      = successes (calls.take i) + (if readSucceeds (calls[i]).1 then 1 else 0) := by
  unfold successes
  rw [List.take_succ, List.getElem?_eq_getElem hi]
  simp only [Option.toList, List.countP_append, List.countP_cons, List.countP_nil]
  simp

/-- Claim C2, as amended. Start from counter value 0 and run any finite sequence
of `handleClient` calls, their increments one after the other, in which fewer
than `2^31` reads succeed. Then the numbers assigned are `1, 2, ..., n` in order;
the call at position `i` is assigned the number of successful reads among the
calls up to and including it when its own read succeeds, and no number
otherwise; so the assigned numbers are strictly increasing and pairwise
distinct. -/
theorem assignedIds_sequential (calls : List (ClientEnv × Int))
    (hbound : successes calls < 2147483648) :
    assignedIds 0 calls = (List.range (successes calls)).map (fun k => ((k + 1 : Nat) : Int))
    ∧ (∀ (i : Nat) (hi : i < calls.length),
        ((serve 0 calls)[i]?).map (fun r => r.message_id)
          = some (if readSucceeds (calls[i]).1
                  then some ((successes (calls.take (i + 1)) : Nat) : Int) else none))
    ∧ List.Pairwise (fun a b => a < b) (assignedIds 0 calls)
    ∧ (assignedIds 0 calls).Nodup := by
  have hids : assignedIds 0 calls
      = (List.range (successes calls)).map (fun k => ((k + 1 : Nat) : Int)) := by
    rw [assignedIds_eq calls 0 (by decide) (by decide)]
    apply List.map_congr_left
    intro k hk
    have hk1 : k < successes calls := List.mem_range.1 hk
    rw [wrapInt32_of_inRange _ (by push_cast; omega) (by push_cast; omega)]
    simp
  have hpair : List.Pairwise (fun a b : Int => a < b) (assignedIds 0 calls) := by
    rw [hids, List.pairwise_map]
    refine (List.pairwise_lt_range _).imp ?_
    intro a b hab
    push_cast
    omega
  refine ⟨hids, ?_, hpair, ?_⟩
  · intro i hi
    have hle := successes_take_le calls i
    have hsucc := successes_take_succ calls i hi
    have hle1 := successes_take_le calls (i + 1)
    rw [serve_getElem?, List.getElem?_eq_getElem hi]
    simp only [Option.map_some', handleClient_message_id]
    rw [counterAfter_eq _ 0 (by decide) (by decide)]
    by_cases hs : readSucceeds (calls[i]).1 = true
    · simp only [hs, if_true] at hsucc ⊢
      rw [wrapInt32_wrap_add,
        wrapInt32_of_inRange _ (by omega) (by omega), hsucc]
      push_cast
      simp
    · simp only [hs, Bool.false_eq_true, if_false]
  · exact hpair.imp (fun h => ne_of_lt h)

/-- Witness of `assignedIds_sequential`: four connections, of which the second
fails to read, the third is closed by the peer without data, and the fourth
is reset by the peer before the reply is sent. -/
theorem assignedIds_sequential_witness :
    assignedIds 0
        [(⟨IoResult.bytes [104, 105], [], 0, SendOutcome.returned 32⟩, 5), (⟨IoResult.error, [], 0, SendOutcome.returned 0⟩, 6),
         (⟨IoResult.bytes [], [], 0, SendOutcome.returned 0⟩, 7), (⟨IoResult.bytes [33], [], 0, SendOutcome.sigpipe⟩, 5)]
      = [1, 2] := by
  have h := (assignedIds_sequential
        [(⟨IoResult.bytes [104, 105], [], 0, SendOutcome.returned 32⟩, 5), (⟨IoResult.error, [], 0, SendOutcome.returned 0⟩, 6),
         (⟨IoResult.bytes [], [], 0, SendOutcome.returned 0⟩, 7), (⟨IoResult.bytes [33], [], 0, SendOutcome.sigpipe⟩, 5)]
        (by decide)).1
  rw [h]
  decide

/-- Claim C2 as stated fails for `2^31` messages: in a run of `2^31` calls whose
reads all succeed, the last one is assigned `-2147483648`, not `2147483648`, so
the numbers are not increasing there. -/
theorem assignedIds_sequential_counterexample :
    (assignedIds 0 (List.replicate 2147483648
        ((⟨IoResult.bytes [65], [], 0, SendOutcome.returned 31⟩ : ClientEnv), (5 : Int))))[2147483647]?
      = some (-2147483648) := by
  have hs : successes (List.replicate 2147483648
      ((⟨IoResult.bytes [65], [], 0, SendOutcome.returned 31⟩ : ClientEnv), (5 : Int))) = 2147483648 := by
    unfold successes
    rw [List.countP_replicate, if_pos (by decide)]
  rw [assignedIds_eq _ 0 (by decide) (by decide), hs, List.getElem?_map,
    List.getElem?_range (by decide)]
  decide

end Server

namespace Server

/-! ## Worker pool -/

section Pool

variable {τ : Type}

theorem runningTasks_replicate_idle (n : Nat) :
    runningTasks (List.replicate n (WorkerState.idle : WorkerState τ)) = [] := by
  induction n with
  | zero => rfl
  | succ k ih => simp [List.replicate_succ, runningTasks, WorkerState.held, ih]

theorem runningTasks_of_allTerminated (ws : List (WorkerState τ))
    (h : ∀ w ∈ ws, w = WorkerState.terminated) : runningTasks ws = [] := by
  induction ws with
  | nil => rfl
  | cons w rest ih =>
    have hw : w = WorkerState.terminated := h w (List.mem_cons_self _ _)
    have hrest := ih (fun x hx => h x (List.mem_cons_of_mem _ hx))
    simp [runningTasks, hw, WorkerState.held, hrest]

/-- Replacing the state of worker `i`: what the old state held, together with
the tasks now being run, is what the new state holds together with the tasks
that were being run. -/
theorem runningTasks_set (ws : List (WorkerState τ)) (i : Nat) (w w1 : WorkerState τ)
    (h : ws[i]? = some w) :
    (w.held ++ runningTasks (ws.set i w1)).Perm (w1.held ++ runningTasks ws) := by
  induction ws generalizing i with
  | nil => simp at h
  | cons x rest ih =>
    cases i with
    | zero =>
      simp only [List.getElem?_cons_zero, Option.some.injEq] at h
      subst h
      simp only [List.set_cons_zero, runningTasks]
      exact List.perm_append_comm_assoc _ _ _
    | succ j =>
      simp only [List.getElem?_cons_succ] at h
      simp only [List.set_cons_succ, runningTasks]
      have h1 := ih j h
      exact (List.perm_append_comm_assoc _ _ _).trans
        ((List.Perm.append_left _ h1).trans (List.perm_append_comm_assoc _ _ _))

theorem mem_terminated_of_set (ws : List (WorkerState τ)) (i : Nat) (w : WorkerState τ)
    (hw : w ≠ WorkerState.terminated) (h : WorkerState.terminated ∈ ws.set i w) :
    WorkerState.terminated ∈ ws := by
  rcases List.mem_or_eq_of_mem_set h with h1 | h1
  · exact h1
  · exact absurd h1.symm hw

theorem ThreadPool.init_inv (n : Nat) : (ThreadPool.init n : ThreadPool τ).Inv n where
  workers := by simp [ThreadPool.init]
  fifo := by simp [ThreadPool.init, ThreadPool.dequeuedTasks]
  accounted := by
    simp [ThreadPool.init, ThreadPool.dequeuedTasks, runningTasks_replicate_idle]
  frozen := by simp [ThreadPool.init]
  drained := by
    intro h
    simp [ThreadPool.init, List.mem_replicate] at h

/-- What a dequeue step needs and does: the worker is waiting, the queue is not
empty, the task taken is the one at the front. -/
theorem ThreadPool.step_dequeue (p q : ThreadPool τ) (i : Nat)
    (h : p.step (PoolAction.dequeue i) = some q) :
    ∃ task rest, p.threads[i]? = some WorkerState.idle ∧ p.tasks_queue = task :: rest
      ∧ q = { p with threads := p.threads.set i (WorkerState.running task)
                     tasks_queue := rest
                     dequeued := p.dequeued ++ [(i, task)] } := by
  simp only [ThreadPool.step] at h
  split at h
  · next task rest hw hq =>
    exact ⟨task, rest, hw, hq, (Option.some.inj h).symm⟩
  · exact absurd h (by simp)

/-- What an exit step needs and does: the worker is waiting, `stop` is set and
the queue is empty. -/
theorem ThreadPool.step_exit (p q : ThreadPool τ) (i : Nat)
    (h : p.step (PoolAction.exit i) = some q) :
    p.threads[i]? = some WorkerState.idle ∧ p.tasks_queue = [] ∧ p.stop = true
      ∧ q = { p with threads := p.threads.set i WorkerState.terminated } := by
  simp only [ThreadPool.step] at h
  split at h
  · next hw hq hs =>
    exact ⟨hw, hq, hs, (Option.some.inj h).symm⟩
  · exact absurd h (by simp)

/-- What a run step needs and does: the worker holds a task, which is logged as
executed, and the worker waits again. -/
theorem ThreadPool.step_run (p q : ThreadPool τ) (i : Nat)
    (h : p.step (PoolAction.run i) = some q) :
    ∃ task, p.threads[i]? = some (WorkerState.running task)
      ∧ q = { p with threads := p.threads.set i WorkerState.idle
                     executed := p.executed ++ [task] } := by
  simp only [ThreadPool.step] at h
  split at h
  · next task hw =>
    exact ⟨task, hw, (Option.some.inj h).symm⟩
  · exact absurd h (by simp)

theorem ThreadPool.step_setStop (p q : ThreadPool τ)
    (h : p.step PoolAction.setStop = some q) :
    p.stop = false ∧ q = { p with stop := true, submittedBeforeStop := p.submitted } := by
  simp only [ThreadPool.step] at h
  split at h
  · exact absurd h (by simp)
  · next hs =>
    exact ⟨by simpa using hs, (Option.some.inj h).symm⟩

theorem ThreadPool.step_addTask (p q : ThreadPool τ) (task : τ)
    (h : p.step (PoolAction.addTask task) = some q) :
    q = { p with tasks_queue := p.tasks_queue ++ [task]
                 submitted := p.submitted ++ [task] } := by
  simp only [ThreadPool.step] at h
  exact (Option.some.inj h).symm

/-- Every enabled step keeps the invariant. -/
theorem ThreadPool.step_inv (n : Nat) (p q : ThreadPool τ) (a : PoolAction τ)
    (hp : p.Inv n) (h : p.step a = some q) : q.Inv n := by
  cases a with
  | addTask task =>
    rw [ThreadPool.step_addTask p q task h]
    refine ⟨hp.workers, ?_, hp.accounted, ?_, hp.drained⟩
    · simp only [ThreadPool.dequeuedTasks]
      rw [show p.submitted = p.dequeuedTasks ++ p.tasks_queue from hp.fifo]
      simp [ThreadPool.dequeuedTasks]
    · intro hs
      exact (hp.frozen hs).trans (List.prefix_append _ _)
  | dequeue i =>
    obtain ⟨task, rest, hw, hq, rfl⟩ := ThreadPool.step_dequeue p q i h
    have hset := runningTasks_set p.threads i _ (WorkerState.running task) hw
    simp only [WorkerState.held, List.nil_append, List.singleton_append] at hset
    refine ⟨by simpa using hp.workers, ?_, ?_, hp.frozen, ?_⟩
    · simp only [ThreadPool.dequeuedTasks, List.map_append, List.map_cons, List.map_nil]
      rw [show p.submitted = p.dequeuedTasks ++ p.tasks_queue from hp.fifo, hq]
      simp [ThreadPool.dequeuedTasks]
    · simp only [ThreadPool.dequeuedTasks, List.map_append, List.map_cons, List.map_nil]
      have h1 : (List.map Prod.snd p.dequeued ++ [task]).Perm
          (task :: (p.executed ++ runningTasks p.threads)) :=
        (List.perm_append_singleton _ _).trans (List.Perm.cons _ hp.accounted)
      refine h1.trans ?_
      refine (List.perm_middle.symm).trans ?_
      exact List.Perm.append_left _ hset.symm
    · intro hmem
      have hmem1 := mem_terminated_of_set p.threads i _ (by simp) hmem
      obtain ⟨hs, hpre⟩ := hp.drained hmem1
      refine ⟨hs, ?_⟩
      simp only [ThreadPool.dequeuedTasks, List.map_append]
      exact hpre.trans (List.prefix_append _ _)
  | run i =>
    obtain ⟨task, hw, rfl⟩ := ThreadPool.step_run p q i h
    have hset := runningTasks_set p.threads i _ WorkerState.idle hw
    simp only [WorkerState.held, List.nil_append, List.singleton_append] at hset
    refine ⟨by simpa using hp.workers, hp.fifo, ?_, hp.frozen, ?_⟩
    · refine hp.accounted.trans ?_
      simp only [List.append_assoc, List.singleton_append]
      exact List.Perm.append_left _ hset.symm
    · intro hmem
      exact hp.drained (mem_terminated_of_set p.threads i _ (by simp) hmem)
  | setStop =>
    obtain ⟨hs, rfl⟩ := ThreadPool.step_setStop p q h
    refine ⟨hp.workers, hp.fifo, hp.accounted, fun _ => List.prefix_refl _, ?_⟩
    intro hmem
    have := (hp.drained hmem).1
    rw [hs] at this
    exact absurd this (by simp)
  | exit i =>
    obtain ⟨hw, hq, hs, rfl⟩ := ThreadPool.step_exit p q i h
    have hset := runningTasks_set p.threads i _ WorkerState.terminated hw
    simp only [WorkerState.held, List.nil_append] at hset
    refine ⟨by simpa using hp.workers, hp.fifo, ?_, hp.frozen, ?_⟩
    · exact hp.accounted.trans (List.Perm.append_left _ hset.symm)
    · intro _
      refine ⟨hs, ?_⟩
      have hpre := hp.frozen hs
      have hfifo : p.submitted = p.dequeuedTasks ++ p.tasks_queue := hp.fifo
      rw [hfifo, hq, List.append_nil] at hpre
      exact hpre

/-- Every state reached by a schedule from a state with the invariant has the
invariant. -/
theorem ThreadPool.exec_inv (n : Nat) (sched : List (PoolAction τ)) (p q : ThreadPool τ)
    (hp : p.Inv n) (h : p.exec sched = some q) : q.Inv n := by
  induction sched generalizing p with
  | nil =>
    simp only [ThreadPool.exec, Option.some.injEq] at h
    exact h ▸ hp
  | cons a rest ih =>
    simp only [ThreadPool.exec] at h
    split at h
    · next r hr => exact ih r (ThreadPool.step_inv n p r a hp hr) h
    · exact absurd h (by simp)

/-- Running a schedule that is split in two runs the first part, then the
second from the state reached. -/
theorem ThreadPool.exec_append (s1 s2 : List (PoolAction τ)) (p : ThreadPool τ) :
    p.exec (s1 ++ s2) = (p.exec s1).bind (fun q => q.exec s2) := by
  induction s1 generalizing p with
  | nil => simp [ThreadPool.exec]
  | cons a rest ih =>
    simp only [List.cons_append, ThreadPool.exec]
    cases p.step a with
    | none => simp
    | some r => simpa using ih r

theorem ThreadPool.dequeuedTasks_prefix (n : Nat) (p : ThreadPool τ) (hp : p.Inv n) :
    p.dequeuedTasks <+: p.submitted :=
  ⟨p.tasks_queue, hp.fifo.symm⟩

/-- Claim C5. Take a pool of `n` workers and any schedule of its atomic steps
(submit, dequeue, run, set stop, exit) from the freshly constructed pool.
(1) Wherever a worker exits in the schedule, `stop` is set and the queue is
empty at that moment. (2) No task is dequeued more often than it was submitted,
and when the submitted tasks are pairwise distinct no task is dequeued by two
workers. (3) With at least one worker, in a state where all workers have exited,
every task submitted before `stop` was set has been dequeued, the executed tasks
are exactly the dequeued ones, and (for pairwise distinct tasks) each task
submitted before `stop` was set has been executed exactly once. -/
theorem pool_drains_on_shutdown [DecidableEq τ] (n : Nat) (sched : List (PoolAction τ))
    (p : ThreadPool τ) (hrun : (ThreadPool.init n).exec sched = some p) :
    (∀ (before after : List (PoolAction τ)) (i : Nat),
        sched = before ++ PoolAction.exit i :: after →
        ∃ q, (ThreadPool.init n).exec before = some q ∧ q.stop = true ∧ q.tasks_queue = [])
    ∧ (∀ task, p.dequeuedTasks.count task ≤ p.submitted.count task)
    ∧ (p.submitted.Nodup →
        ∀ (i j : Nat) (task : τ), (i, task) ∈ p.dequeued → (j, task) ∈ p.dequeued → i = j)
    ∧ (1 ≤ n → p.allTerminated →
        p.submittedBeforeStop <+: p.dequeuedTasks
        ∧ p.executed.Perm p.dequeuedTasks
        ∧ (p.submitted.Nodup → ∀ task ∈ p.submittedBeforeStop, p.executed.count task = 1)) := by
  have hinv : p.Inv n := ThreadPool.exec_inv n sched _ p (ThreadPool.init_inv n) hrun
  have hpre : p.dequeuedTasks <+: p.submitted := ThreadPool.dequeuedTasks_prefix n p hinv
  have hnodup : p.submitted.Nodup → p.dequeuedTasks.Nodup := fun h => hpre.sublist.nodup h
  refine ⟨?_, fun task => hpre.sublist.count_le task, ?_, ?_⟩
  · intro before after i hsplit
    rw [hsplit, ThreadPool.exec_append] at hrun
    cases hq : (ThreadPool.init n).exec before with
    | none => simp [hq] at hrun
    | some q =>
      refine ⟨q, rfl, ?_⟩
      simp only [hq, Option.some_bind, ThreadPool.exec] at hrun
      split at hrun
      · next r hr =>
        obtain ⟨-, hqueue, hstop, -⟩ := ThreadPool.step_exit q r i hr
        exact ⟨hstop, hqueue⟩
      · exact absurd hrun (by simp)
  · intro hnd i j task hi hj
    have hinj := List.inj_on_of_nodup_map (hnodup hnd) hi hj rfl
    exact congrArg Prod.fst hinj
  · intro hn hall
    have hex : ∃ w, w ∈ p.threads := by
      have hlen : 0 < p.threads.length := by rw [hinv.workers]; omega
      exact ⟨_, List.getElem_mem hlen⟩
    obtain ⟨w, hw⟩ := hex
    have hterm : WorkerState.terminated ∈ p.threads := (hall w hw) ▸ hw
    obtain ⟨-, hdr⟩ := hinv.drained hterm
    have hperm : p.executed.Perm p.dequeuedTasks := by
      have h1 := hinv.accounted
      rw [runningTasks_of_allTerminated p.threads hall, List.append_nil] at h1
      exact h1.symm
    refine ⟨hdr, hperm, ?_⟩
    intro hnd task htask
    rw [hperm.count_eq]
    exact List.count_eq_one_of_mem (hnodup hnd) (hdr.subset htask)

/-- Claim C6. `addTask` is always enabled and puts the task at the back of the
queue, a dequeue takes the task at the front, and in every state reached by a
schedule from the freshly constructed pool the tasks dequeued so far, in
dequeue order, are a prefix of the tasks in submission order. -/
theorem pool_fifo_dispatch (n : Nat) (sched : List (PoolAction τ)) (p : ThreadPool τ)
    (hrun : (ThreadPool.init n).exec sched = some p) :
    p.dequeuedTasks <+: p.submitted
    ∧ p.submitted = p.dequeuedTasks ++ p.tasks_queue
    ∧ (∀ task, ∃ q, p.step (PoolAction.addTask task) = some q
        ∧ q.tasks_queue = p.tasks_queue ++ [task] ∧ q.submitted = p.submitted ++ [task]
        ∧ q.dequeued = p.dequeued)
    ∧ (∀ i q, p.step (PoolAction.dequeue i) = some q →
        ∃ task, p.tasks_queue = task :: q.tasks_queue
          ∧ q.dequeued = p.dequeued ++ [(i, task)] ∧ q.submitted = p.submitted) := by
  have hinv : p.Inv n := ThreadPool.exec_inv n sched _ p (ThreadPool.init_inv n) hrun
  refine ⟨ThreadPool.dequeuedTasks_prefix n p hinv, hinv.fifo, ?_, ?_⟩
  · intro task
    exact ⟨_, rfl, rfl, rfl, rfl⟩
  · intro i q hq
    obtain ⟨task, rest, -, hqueue, rfl⟩ := ThreadPool.step_dequeue p q i hq
    exact ⟨task, hqueue, rfl, rfl⟩

end Pool

/-- Witness of `pool_drains_on_shutdown`: two workers, two tasks submitted
before teardown and one after it began; when both workers have exited all
three have run, each once. -/
theorem pool_drains_on_shutdown_witness :
    (ThreadPool.init 2).exec exampleSchedule = some exampleFinal
    ∧ exampleFinal.submittedBeforeStop = [7, 8]
    ∧ exampleFinal.executed.count 7 = 1 ∧ exampleFinal.executed.count 8 = 1 := by
  have hrun : (ThreadPool.init 2).exec exampleSchedule = some exampleFinal := by decide
  have h := (pool_drains_on_shutdown 2 exampleSchedule exampleFinal hrun).2.2.2
    (by decide) (by decide)
  have hc := h.2.2 (by decide)
  exact ⟨hrun, rfl, hc 7 (by decide), hc 8 (by decide)⟩

/-- Witness of `pool_fifo_dispatch`: in the example run the workers took the
tasks in the order 7, 8, 9 in which they were submitted. -/
theorem pool_fifo_dispatch_witness :
    (ThreadPool.init 2).exec exampleSchedule = some exampleFinal
    ∧ exampleFinal.dequeuedTasks <+: exampleFinal.submitted
    ∧ exampleFinal.dequeuedTasks = [7, 8, 9] := by
  have hrun : (ThreadPool.init 2).exec exampleSchedule = some exampleFinal := by decide
  exact ⟨hrun, (pool_fifo_dispatch 2 exampleSchedule exampleFinal hrun).1, by decide⟩

end Server

namespace Client

/-! ## Client -/

/-- Writing the terminator right after the received bytes: the string built
from the buffer is the string built from the received bytes alone. -/
theorem cString_set_terminator (data rest : List Byte) (hrest : rest ≠ []) :
    cString ((data ++ rest).set data.length 0) = cString data := by
  induction data with
  | nil =>
    cases rest with
    | nil => exact absurd rfl hrest
    | cons x r => simp [cString]
  | cons a d ih =>
    simp only [List.cons_append, List.length_cons, List.set_cons_succ, cString,
      List.takeWhile_cons]
    simp only [cString] at ih
    rw [ih]

theorem cString_length_le (data : List Byte) : (cString data).length ≤ data.length := by
  unfold cString
  exact (List.takeWhile_sublist _).length_le

theorem cString_prefix (data : List Byte) : cString data <+: data := by
  unfold cString
  exact List.takeWhile_prefix _

theorem cString_of_no_zero (data : List Byte) (h : ∀ b ∈ data, b ≠ 0) : cString data = data := by
  unfold cString
  rw [List.takeWhile_eq_self_iff]
  intro b hb
  simpa using h b hb

/-- When `recv` delivers at most 1023 bytes, `receiveMessage` returns the string
that ends before the first zero byte of the received bytes. -/
theorem receiveMessage_eq_cString (c : TCPClient) (data : List Byte)
    (hlen : data.length ≤ 1023) :
    (c.receiveMessage (IoResult.bytes data)).1 = cString data := by
  have htake : data.take 1023 = data := List.take_of_length_le hlen
  have hne : List.drop data.length (List.replicate 1024 (0 : Byte)) ≠ [] := by
    intro h
    have := congrArg List.length h
    simp only [List.length_drop, List.length_replicate, List.length_nil] at this
    omega
  simp only [TCPClient.receiveMessage, sysRead, htake, Nat.reduceSub]
  rw [if_neg (by omega)]
  simp only [Int.toNat_ofNat]
  exact cString_set_terminator data _ hne

/-- Claim C7, as amended. For every outcome of the single `recv`: on an error the
result of `receiveMessage` is the empty string; when `recv` delivers `n` bytes
(`0 ≤ n ≤ 1023`) the result is those bytes up to, and without, the first zero
byte among them. Hence the result is a prefix of the received bytes, its length
is at most `n` and never exceeds 1023, it is exactly the received bytes when
none of them is zero, and zero bytes received yield the empty string. -/
theorem receiveMessage_result (c : TCPClient) (r : IoResult) :
    (r = IoResult.error → (c.receiveMessage r).1 = [])
    ∧ (∀ data : List Byte, r = IoResult.bytes data → data.length ≤ 1023 →
        (c.receiveMessage r).1 = data.takeWhile (fun b => b != 0)
        ∧ (c.receiveMessage r).1 <+: data
        ∧ (c.receiveMessage r).1.length ≤ data.length
        ∧ (c.receiveMessage r).1.length ≤ 1023
        ∧ ((∀ b ∈ data, b ≠ 0) → (c.receiveMessage r).1 = data))
    ∧ (r = IoResult.bytes [] → (c.receiveMessage r).1 = []) := by
  have key := receiveMessage_eq_cString c
  refine ⟨?_, ?_, ?_⟩
  · intro h
    subst h
    simp only [TCPClient.receiveMessage, sysRead]
    rw [if_pos (by decide)]
  · intro data h hlen
    subst h
    rw [key data hlen]
    refine ⟨rfl, cString_prefix data, cString_length_le data, ?_, cString_of_no_zero data⟩
    exact (cString_length_le data).trans hlen
  · intro h
    subst h
    rw [key [] (by simp)]
    rfl

/-- Witness of `receiveMessage_result`: a failed `recv`, a reply without zero
bytes, a reply with a zero byte in it, and an orderly close by the peer. -/
theorem receiveMessage_result_witness :
    (TCPClient.receiveMessage ⟨3⟩ IoResult.error).1 = []
    ∧ (TCPClient.receiveMessage ⟨3⟩ (IoResult.bytes [79, 75])).1 = [79, 75]
    ∧ (TCPClient.receiveMessage ⟨3⟩ (IoResult.bytes [79, 0, 75])).1 = [79]
    ∧ (TCPClient.receiveMessage ⟨3⟩ (IoResult.bytes [])).1 = [] := by
  have h0 := (receiveMessage_result ⟨3⟩ IoResult.error).1 rfl
  have h1 := ((receiveMessage_result ⟨3⟩ (IoResult.bytes [79, 75])).2.1 [79, 75] rfl
    (by decide)).2.2.2.2 (by decide)
  have h2 := ((receiveMessage_result ⟨3⟩ (IoResult.bytes [79, 0, 75])).2.1 [79, 0, 75] rfl
    (by decide)).1
  have h3 := (receiveMessage_result ⟨3⟩ (IoResult.bytes [])).2.2 rfl
  exact ⟨h0, h1, h2.trans (by decide), h3⟩

/-- Claim C7 as stated fails: when `recv` delivers the three bytes `A`, zero,
`B`, the result is the one byte `A`, so it is not those three bytes and its
length is 1, not 3. -/
theorem receiveMessage_result_counterexample :
    (TCPClient.receiveMessage ⟨3⟩ (IoResult.bytes [65, 0, 66])).1 = [65]
    ∧ (TCPClient.receiveMessage ⟨3⟩ (IoResult.bytes [65, 0, 66])).1 ≠ [65, 0, 66]
    ∧ (TCPClient.receiveMessage ⟨3⟩ (IoResult.bytes [65, 0, 66])).1.length ≠ 3 := by
  have h : (TCPClient.receiveMessage ⟨3⟩ (IoResult.bytes [65, 0, 66])).1 = [65] := by
    rw [receiveMessage_eq_cString _ _ (by decide)]
    decide
  rw [h]
  decide

end Client

namespace Server

/-! ## Listener -/

/-- What `initialize` does when `socket` returns a descriptor other than 0: it
goes on to `setsockopt`, and then returns true exactly when `setsockopt`
returns zero and `bind` and `listen` return no negative value. -/
theorem initialize_of_socket_ne_zero (env : InitEnv) (s : TCPServer) (h : env.socketRet ≠ 0) :
    (( TCPServer.initialize env s).1 = true
      ↔ env.setsockoptRet = 0 ∧ 0 ≤ env.bindRet ∧ 0 ≤ env.listenRet)
    ∧ ( TCPServer.initialize env s).2.1.server_fd = env.socketRet
    ∧ [Event.socket, Event.setsockopt env.socketRet] <+: ( TCPServer.initialize env s).2.2 := by
  unfold TCPServer.initialize
  simp only [h, if_false]
  split
  · refine ⟨?_, rfl, by simp⟩
    simp only [Bool.false_eq_true, false_iff]
    intro h1
    exact absurd h1.1 (by assumption)
  · split
    · refine ⟨?_, rfl, by simp⟩
      simp only [Bool.false_eq_true, false_iff]
      omega
    · split
      · refine ⟨?_, rfl, by simp⟩
        simp only [Bool.false_eq_true, false_iff]
        omega
      · refine ⟨?_, rfl, by simp⟩
        simp only [true_iff]
        omega

/-- Claim C8, the code at its failing inputs. (1) `socket` returns the valid
descriptor 0 and the other three steps would succeed: `initialize` returns
false and makes no further call. (2) `socket` fails with -1: `initialize` does
not stop there but calls `setsockopt` on -1 (which fails), then `close` on -1,
and only then returns false. (3) Were the three later calls to report success
after a failed `socket`, `initialize` would return true. -/
theorem initialize_socket_check :
    (InitEnv.allSucceed ⟨0, 0, 0, 0⟩
      ∧ TCPServer.initialize ⟨0, 0, 0, 0⟩ (TCPServer.construct 8080)
        = (false, ⟨0, 8080⟩, [Event.socket, Event.perror (ascii "Socket creation failed")]))
    ∧ TCPServer.initialize ⟨-1, -1, -1, -1⟩ (TCPServer.construct 8080)
        = (false, ⟨-1, 8080⟩, [Event.socket, Event.setsockopt (-1),
            Event.perror (ascii "Setsockopt failed"), Event.close (-1)])
    ∧ ( TCPServer.initialize ⟨-1, 0, 0, 0⟩ (TCPServer.construct 8080)).1 = true := by
  decide

/-- Claim C9, the code at its failing input. `socket` returns descriptor 3,
`setsockopt` succeeds and `bind` fails: `initialize` closes 3 and leaves
`server_fd` at 3, so the destructor closes 3 a second time. With a successful
`initialize` the descriptor is closed once. -/
theorem lifecycle_double_close :
    ( TCPServer.initialize ⟨3, 0, -1, 0⟩ (TCPServer.construct 8080)).2.1.server_fd = 3
    ∧ closedFds (TCPServer.lifecycle 8080 ⟨3, 0, -1, 0⟩ false).2.2 = [3, 3]
    ∧ closedFds (TCPServer.lifecycle 8080 ⟨3, -1, 0, 0⟩ false).2.2 = [3, 3]
    ∧ closedFds (TCPServer.lifecycle 8080 ⟨3, 0, 0, -1⟩ false).2.2 = [3, 3]
    ∧ closedFds (TCPServer.lifecycle 8080 ⟨3, 0, 0, 0⟩ false).2.2 = [3] := by
  decide

/-- The closes of a lifecycle whose `initialize` succeeds on a descriptor that
is not negative: that descriptor, once, whether or not `closeServer` is also
called explicitly before the destructor. -/
theorem lifecycle_closes_once_of_success (port : Int) (env : InitEnv) (explicitClose : Bool)
    (hfd : 0 ≤ env.socketRet)
    (hok : ( TCPServer.initialize env (TCPServer.construct port)).1 = true) :
    closedFds (TCPServer.lifecycle port env explicitClose).2.2 = [env.socketRet]
    ∧ (TCPServer.lifecycle port env explicitClose).2.1.server_fd = -1 := by
  have hne : env.socketRet ≠ 0 := by
    intro h0
    simp [ TCPServer.initialize, h0] at hok
  have h := initialize_of_socket_ne_zero env (TCPServer.construct port) hne
  obtain ⟨h1, h2, h3⟩ := h.1.1 hok
  have hinit : TCPServer.initialize env (TCPServer.construct port)
      = (true, ⟨env.socketRet, port⟩, [Event.socket, Event.setsockopt env.socketRet,
          Event.bind env.socketRet, Event.listen env.socketRet 3]) := by
    unfold TCPServer.initialize TCPServer.construct
    simp only [hne, if_false, h1, ne_eq, not_true_eq_false]
    rw [if_neg (by omega), if_neg (by omega)]
  unfold TCPServer.lifecycle
  rw [hinit]
  cases explicitClose
  · simp [TCPServer.destroy, TCPServer.closeServer, hfd, closedFds]
  · simp [TCPServer.destroy, TCPServer.closeServer, hfd, closedFds]

end Server

/-! ## Closing twice -/

/-- Claim C10. For every descriptor value stored in a client or in a listener,
closing twice leaves the object as closing once does, and the second call
makes no system call at all. After a close the stored descriptor is negative,
which is what both objects test before they close; it is -1 for every value the
programs store (the -1 of the constructors and what `socket` returns, which is
-1 or a descriptor). -/
theorem close_idempotent (fd port : Int) :
    (Client.TCPClient.closeConnection (Client.TCPClient.closeConnection ⟨fd⟩).1
        = ((Client.TCPClient.closeConnection ⟨fd⟩).1, [])
      ∧ (Client.TCPClient.closeConnection ⟨fd⟩).1.clientSocket < 0
      ∧ (-1 ≤ fd → (Client.TCPClient.closeConnection ⟨fd⟩).1.clientSocket = -1))
    ∧ (Server.TCPServer.closeServer (Server.TCPServer.closeServer ⟨fd, port⟩).1
        = ((Server.TCPServer.closeServer ⟨fd, port⟩).1, [])
      ∧ (Server.TCPServer.closeServer ⟨fd, port⟩).1.server_fd < 0
      ∧ (-1 ≤ fd → (Server.TCPServer.closeServer ⟨fd, port⟩).1.server_fd = -1)) := by
  by_cases h : fd ≥ 0
  · simp [Client.TCPClient.closeConnection, Server.TCPServer.closeServer, h]
  · have h1 : fd < 0 := by omega
    simp only [Client.TCPClient.closeConnection, Server.TCPServer.closeServer, h, if_false]
    refine ⟨⟨trivial, h1, ?_⟩, ⟨trivial, h1, ?_⟩⟩ <;> intro h2 <;> omega

/-- Witness of `close_idempotent`: an open client on descriptor 4 and an open
listener on descriptor 4; the first close issues `close(4)`, and the state after
it has descriptor -1. -/
theorem close_idempotent_witness :
    (Client.TCPClient.closeConnection ⟨4⟩).2 = [Event.close 4]
    ∧ (Client.TCPClient.closeConnection ⟨4⟩).1.clientSocket = -1
    ∧ (Server.TCPServer.closeServer ⟨4, 8080⟩).1.server_fd = -1
    ∧ (Server.TCPServer.closeServer (Server.TCPServer.closeServer ⟨4, 8080⟩).1).2 = [] := by
  have h := close_idempotent 4 8080
  refine ⟨by decide, h.1.2.2 (by decide), h.2.2.2 (by decide), ?_⟩
  rw [h.2.1]
